import Mathlib

/-!
# Verification of the prunepytest import-graph engine and runtime import tracker

This development embeds the core data model and operations of the
prunepytest repository (Python sources under `src/pyext/python/src/`) in
Lean and proves the quantified properties stated in the specification.

The embedding covers:

* the runtime import `Tracker` (`testfully/tracker.py`): its loading
  stack, the per-module transitive-dependency sets, cycle consolidation,
  failure rollback, the context enter/exit API, the `with_dynamic` query
  and the dynamic-import stack-walk classification;
* the pytest selection collaborator
  (`prunepytest/pytest/selector.py`): the per-item keep/deselect
  decision and the safety fallback of `pytest_collection_modifyitems`;
* the static `ModuleGraph` (whose Rust implementation is not part of the
  Python source tree; it is modelled from the specification).

Python `set` objects are mutable and aliased: the tracker's cycle
consolidation depends on several `tracked[]` slots holding the *same*
set object.  The embedding therefore represents every set object by an
index (`Nat`) into an arena `arena : Nat → Finset ModId`; two slots are
object-identical exactly when they hold the same index.

Module names (dotted strings such as `"pkg.sub.mod"`) are represented as
their lists of components (`["pkg", "sub", "mod"]`), so that
`name.rpartition('.')[0]` becomes `List.dropLast` and
`name.partition('.')[0]` becomes `List.headD`.
-/

/-- A dotted module name, as its list of components.  The root context of
the tracker (Python's `""`) is the empty list. -/
abbrev ModId := List String

/-- A dynamic-import aggregation point: `(module name, function name)`. -/
abbrev Anchor := ModId × String

/-- State of the runtime import tracker (`Tracker` in
`testfully/tracker.py`).  Mutable Python `set` objects are modelled as
indices into `arena`, so that aliasing (object identity) is observable.
The fields `file_to_module`, `patches`, the log file and the saved
original import hooks are I/O or interpreter plumbing and carry no
tracked-dependency state; they are not modelled. -/
structure TrackerState where
  /-- `self.stack`: the ordered sequence of currently-loading module ids;
  the *last* element is the top, as in the Python list. -/
  stack : List ModId
  /-- `self.cxt`: the set object holding the current context's deps. -/
  cxt : Nat
  /-- the heap of set objects. -/
  arena : Nat → Finset ModId
  /-- number of allocated set objects; fresh sets get index `arenaSize`. -/
  arenaSize : Nat
  /-- `self.tracked`: module name → its set object, when present. -/
  tracked : ModId → Option Nat
  /-- `self.dynamic_imports`: anchor → set of dynamically imported ids. -/
  dynamicImports : Anchor → Finset ModId
  /-- `self.dynamic_users`: caller module → set of anchors it used. -/
  dynamicUsers : ModId → Finset Anchor

namespace TrackerState

/-- `Tracker.__init__`: stack `[""]`, `tracked = {"": cxt}` with a single
fresh empty set shared between `cxt` and `tracked[""]`. -/
def init : TrackerState where
  stack := [[]]
  cxt := 0
  arena := fun _ => ∅
  arenaSize := 1
  tracked := fun m => if m = ([] : ModId) then some 0 else none
  dynamicImports := fun _ => ∅
  dynamicUsers := fun _ => ∅

/-- Write set object `i` of the arena. -/
def updArena (a : Nat → Finset ModId) (i : Nat) (s : Finset ModId) :
    Nat → Finset ModId :=
  fun j => if j = i then s else a j

/-- Point `tracked[m]` at `v` (or delete the entry with `none`). -/
def updTracked (t : ModId → Option Nat) (m : ModId) (v : Option Nat) :
    ModId → Option Nat :=
  fun x => if x = m then v else t x

/-- The value of `self.tracked[m]` as a set of ids (empty when the key is
absent, in which case Python would raise `KeyError`). -/
def readTracked (s : TrackerState) (m : ModId) : Finset ModId :=
  match s.tracked m with
  | some r => s.arena r
  | none => ∅

/-- `self.cxt.add(x)`: insert `x` into the current context's set object;
every slot aliased to `cxt` observes the insertion. -/
def insertCur (s : TrackerState) (x : ModId) : TrackerState :=
  { s with arena := updArena s.arena s.cxt (insert x (s.arena s.cxt)) }

/-- `Tracker.enter_context`: push a synthetic frame. -/
def enterContext (s : TrackerState) (cxt : ModId) : TrackerState :=
  { s with stack := s.stack ++ [cxt] }

/-- Outcome of `Tracker.exit_context`: either success, or the
`ValueError(f"mismatching context entry/exit: {actual} != {expected}")`
carrying both the popped entry and the expected one, or the `IndexError`
of popping an empty list. -/
inductive ExitResult where
  | ok : ExitResult
  | mismatch (actual expected : ModId) : ExitResult
  | emptyStack : ExitResult
deriving DecidableEq

/-- `Tracker.exit_context`: `actual = self.stack.pop()`, then raise
unless `actual == expected`.  The pop happens before the comparison, so
the mismatched entry is lost even on failure. -/
def exitContext (s : TrackerState) (expected : ModId) :
    TrackerState × ExitResult :=
  match s.stack.getLast? with
  | none => (s, .emptyStack)
  | some actual =>
    let s' := { s with stack := s.stack.dropLast }
    if actual = expected then (s', .ok) else (s', .mismatch actual expected)

/-- `Tracker.with_dynamic(m)`:
`tracked[m] | {i for u in dynamic_users.get(m, ()) for i in dynamic_imports.get(u, ())}`. -/
def withDynamic (s : TrackerState) (m : ModId) : Finset ModId :=
  readTracked s m ∪ (s.dynamicUsers m).biUnion (fun u => s.dynamicImports u)

/-- `next((i for i, v in enumerate(stack) if v == name), -1)`: index of the
first occurrence of `name`, or `none` in place of `-1`. -/
def firstIdx (l : List ModId) (name : ModId) : Option Nat :=
  match l with
  | [] => none
  | x :: xs => if x = name then some 0 else (firstIdx xs name).map (· + 1)

/-- One iteration of the consolidation loop of `_find_and_load_helper`
(`for mod in cycle[1:]`): when `tracked[mod]` is not the same set object
as the consolidated one, union its contents into the consolidated set and
repoint `tracked[mod]` to it.  (`tracked[mod]` is present for every stack
entry in reachable states; on a missing key Python would raise `KeyError`
and the model leaves the state unchanged.) -/
def consolStep (r : Nat) (s : TrackerState) (mod : ModId) : TrackerState :=
  match s.tracked mod with
  | none => s
  | some d =>
    if d = r then s
    else
      { s with
        arena := updArena s.arena r (s.arena r ∪ s.arena d)
        tracked := updTracked s.tracked mod (some r) }

/-- The consolidation loop over `cycle[1:]`, with `r` the set object of
the first entry of the cycle (`consolidated = self.tracked[name]`). -/
def consolidate (r : Nat) (s : TrackerState) (mods : List ModId) : TrackerState :=
  mods.foldl (consolStep r) s

/-- The entry phase of `Tracker._find_and_load_helper(name)`, before the
call is forwarded to the real `_find_and_load`: add `name` to the current
context, then
* already tracked and not on the stack: union `tracked[name]` into the
  current context;
* already tracked and on the stack: an import cycle from its first
  occurrence to the top; consolidate every participant onto the set
  object of the first entry and make it the current context;
* fresh: allocate a new empty set, point `tracked[name]` at it, push
  `name` and make it the current context, marking `new_context`.
Returns the new state and the `new_context` flag. -/
def trackEntry (s : TrackerState) (name : ModId) : TrackerState × Bool :=
  let s0 := insertCur s name
  match s0.tracked name with
  | some r =>
    match firstIdx s0.stack name with
    | none =>
      ({ s0 with arena := updArena s0.arena s0.cxt (s0.arena s0.cxt ∪ s0.arena r) },
       false)
    | some i =>
      let cycle := s0.stack.drop i
      let s1 := consolidate r s0 cycle.tail
      ({ s1 with cxt := r }, false)
  | none =>
    let n := s0.arenaSize
    ({ s0 with
        arena := updArena s0.arena n ∅
        arenaSize := n + 1
        tracked := updTracked s0.tracked name (some n)
        stack := s0.stack ++ [name]
        cxt := n },
     true)

/-- The success-path reification of the implicit parent-package
dependency (`parent = name.rpartition('.')[0]`; when the parent is known
and not yet in the context, add it and its deps, and propagate its
dynamic users to `name`). -/
def reifyParent (s : TrackerState) (name : ModId) : TrackerState :=
  if name.length ≤ 1 then s
  else
    let parent := name.dropLast
    if parent ∈ s.arena s.cxt then s
    else
      match s.tracked parent with
      | none => s
      | some p =>
        let s1 :=
          { s with
            arena := updArena s.arena s.cxt
              (insert parent (s.arena s.cxt) ∪ s.arena p) }
        if s1.dynamicUsers parent ≠ ∅ then
          { s1 with
            dynamicUsers := fun m =>
              if m = name then s1.dynamicUsers name ∪ s1.dynamicUsers parent
              else s1.dynamicUsers m }
        else s1

/-- The `finally` block of `_find_and_load_helper`: when a context was
pushed, pop it, union the child's set into the parent's set (unless they
are the same object) and make the parent's set current; on error, discard
the optimistically added dependency on `name` from the parent's set.
(`tracked[stack[-1]]` is present in every reachable state; on a missing
key Python would raise `KeyError` and the model only restores the root
context.) -/
def finishLoad (s : TrackerState) (name : ModId) (newCxt hasErr : Bool) :
    TrackerState :=
  if newCxt then
    let s1 := { s with stack := s.stack.dropLast }
    let n := s1.stack.getLast?.getD []
    match s1.tracked n with
    | none => { s1 with cxt := 0 }
    | some down =>
      let s2 :=
        if down = s1.cxt then s1
        else { s1 with arena := updArena s1.arena down (s1.arena down ∪ s1.arena s1.cxt) }
      let s3 := { s2 with cxt := down }
      if hasErr then
        { s3 with arena := updArena s3.arena down ((s3.arena down).erase name) }
      else s3
  else s

end TrackerState

/-- One call to the hooked loader: loading `name` triggers the nested
loads `children` (in order) while the module body executes, and then the
body itself finishes successfully (`ok = true`) or raises (`ok = false`).
A failing nested load aborts the body, so the failure propagates. -/
inductive LoadTree where
  | node (name : ModId) (children : List LoadTree) (ok : Bool)

mutual

/-- `Tracker._find_and_load_helper`: entry phase, forwarding to the real
loader (which runs the nested loads), the success-path parent
reification, the failure-path rollback of the fresh `tracked[]` entry
(`if name not in self.stack[:-1]: del self.tracked[name]`), and the
`finally` block.  Returns the final state and whether the load succeeded
(`false` means the error is re-raised to the caller). -/
def runLoad (s : TrackerState) : LoadTree → TrackerState × Bool
  | .node name children ok =>
    let e := s.trackEntry name
    let c := runChildren e.1 children
    if c.2 && ok then
      (TrackerState.finishLoad (c.1.reifyParent name) name e.2 false, true)
    else
      let s3 :=
        if e.2 && !(decide (name ∈ c.1.stack.dropLast)) then
          { c.1 with tracked := TrackerState.updTracked c.1.tracked name none }
        else c.1
      (TrackerState.finishLoad s3 name e.2 true, false)

/-- Run a list of nested loads in order, stopping at the first failure
(whose exception propagates into the enclosing module body). -/
def runChildren (s : TrackerState) : List LoadTree → TrackerState × Bool
  | [] => (s, true)
  | c :: cs =>
    let r := runLoad s c
    if r.2 then runChildren r.1 cs else (r.1, false)

end

/-!
## Dynamic-import classification (`Tracker.record_dynamic_imports`)

The classification loop (tracker.py lines 455–491) walks the recorded
stack frames from the outermost towards the dynamic entry point.  A frame
is modelled by the module id its filename resolved to through
`file_to_module` (`none` when unresolved or when the frame belongs to the
tracker or the import machinery — both cases are skipped by the loop) and
its function name.  Function selectors from the `dynamic_anchors` /
`dynamic_ignores` configuration ("name" or "obj.attr") are modelled as
their dot-separated components, so that `a.rpartition('.')[2]` becomes
`List.getLast?`.
-/

/-- A dotted function selector from the anchor/ignore configuration. -/
abbrev Selector := List String

/-- One walked stack frame: the resolved module id of its file (if any)
and the frame's function name. -/
structure Frame where
  mod : Option ModId
  fn : String
deriving DecidableEq

/-- `mod in dynamic_ignores and frame.name in dynamic_ignores[mod]`: the
frame name is compared for *equality* with the configured selectors, so a
dotted `"obj.attr"` ignore selector never matches a bare frame name. -/
def ignMatch (ign : ModId → Finset Selector) (m : ModId) (fn : String) : Bool :=
  decide (([fn] : Selector) ∈ ign m)

/-- `frame.name in dynamic_anchors[mod] or any(a.rpartition('.')[2] ==
frame.name for a in dynamic_anchors[mod])`: unlike ignores, anchors also
match on the last component of a dotted selector. -/
def ancMatch (anc : ModId → Finset Selector) (m : ModId) (fn : String) : Bool :=
  decide (([fn] : Selector) ∈ anc m) ||
    decide (∃ a ∈ anc m, a.getLast? = some fn)

/-- Result of the classification: `static` models the early
`return -1, None` taken on an ignore match (the caller then performs a
plain tracked load, recording nothing in `dynamic_imports` or
`dynamic_users`); `dyn a` models `return prev_stack, anchor` with
`anchor = a` (the explicit anchor found, otherwise the last candidate
frame within the tracked prefixes, otherwise `none`). -/
inductive DynClass where
  | static : DynClass
  | dyn (anchor : Option Anchor) : DynClass
deriving DecidableEq

/-- `frameIgn` lifted to a frame (unresolved frames are skipped). -/
def frameIgn (ign : ModId → Finset Selector) (f : Frame) : Bool :=
  match f.mod with
  | some m => ignMatch ign m f.fn
  | none => false

/-- `frameAnc` lifted to a frame (unresolved frames are skipped). -/
def frameAnc (anc : ModId → Finset Selector) (f : Frame) : Bool :=
  match f.mod with
  | some m => ancMatch anc m f.fn
  | none => false

/-- The classification loop of `record_dynamic_imports` over the walked
portion of the stack, threading the running `last_candidate`:
for each frame with a resolved module, first check `dynamic_ignores`
(early static return), then `dynamic_anchors` (break with that anchor),
else remember the frame as last candidate when its top-level component is
within the tracked prefixes. -/
def classifyFrames (ign anc : ModId → Finset Selector) (prefixes : Finset String) :
    List Frame → Option Anchor → DynClass
  | [], lc => .dyn lc
  | f :: rest, lc =>
    match f.mod with
    | none => classifyFrames ign anc prefixes rest lc
    | some m =>
      if ignMatch ign m f.fn then .static
      else if ancMatch anc m f.fn then .dyn (some (m, f.fn))
      else if decide (m.headD "" ∈ prefixes) then
        classifyFrames ign anc prefixes rest (some (m, f.fn))
      else classifyFrames ign anc prefixes rest lc

/-!
## The pytest selection collaborator (`prunepytest/pytest/selector.py`)

File paths, test names and data paths are plain strings here.  The
`ModuleGraph` consumed by the selector is summarised by the observations
the selector makes of it: whether `file_depends_on(path)` is non-`None`
(`inGraph`, cached as `covered_files`), the set
`g.affected_by_files(modified)` and the set
`g.affected_by_modules({"importlib", "__import__"})` of files with
unhandled dynamic imports.  The hook's `filter_irrelevant_files` is
modelled as a pointwise predicate (`filter_irrelevant_files(s)` keeps the
elements of `s` satisfying it). -/
structure SelectorEnv where
  inGraph : String → Bool
  affectedFiles : Finset String
  modified : Finset String
  alwaysRun : Finset String
  unhandledDyn : Finset String
  filterIrr : String → Bool

/-- A collected test item: `(file_path, optional data_path, name)`. -/
structure TestItem where
  file : String
  data : Option String
  name : String
deriving DecidableEq

namespace SelectorEnv

/-- `affected = g.affected_by_files(self.modified) | self.modified`. -/
def affected (env : SelectorEnv) : Finset String :=
  env.affectedFiles ∪ env.modified

/-- `_BaseSelector.should_keep`: keep the item if the test file is not
covered by the graph, or it is affected, or it is always-run, or it is a
data-driven test whose data file is affected or always-run, or the test
case name is always-run. -/
def shouldKeep (env : SelectorEnv) (it : TestItem) : Bool :=
  !(env.inGraph it.file)
  || decide (it.file ∈ env.affected)
  || decide (it.file ∈ env.alwaysRun)
  || (match it.data with
      | some d => decide (d ∈ env.affected) || decide (d ∈ env.alwaysRun)
      | none => false)
  || decide (it.name ∈ env.alwaysRun)

/-- The per-item deselection decision of
`PruneSelector.pytest_collection_modifyitems`:
`keep = self.should_keep(item, affected) or (file in has_unhandled_dyn_imports)`,
and the item is removed from the collection when not kept. -/
def pruned (env : SelectorEnv) (it : TestItem) : Bool :=
  !(env.shouldKeep it || decide (it.file ∈ env.unhandledDyn))

/-- The per-item bookkeeping of the safety loop:
`if covered_files[file]: remaining.discard(file)`, and
`if data: remaining.discard(data)`. -/
def discardStep (env : SelectorEnv) (r : Finset String) (it : TestItem) :
    Finset String :=
  let r1 := if env.inGraph it.file then r.erase it.file else r
  match it.data with
  | some d => r1.erase d
  | none => r1

/-- The safety bookkeeping of `pytest_collection_modifyitems`: starting
from the modified set, discard every covered test file and every data
file of a collected item, then everything always-run, then everything
known to the graph, then apply `filter_irrelevant_files`. -/
def remainingAfter (env : SelectorEnv) (items : List TestItem) : Finset String :=
  ((items.foldl env.discardStep env.modified \ env.alwaysRun).filter
      (fun x => !(env.inGraph x))).filter
    (fun x => env.filterIrr x = true)

end SelectorEnv

/-- Outcome of `pytest_collection_modifyitems`: the final collection, the
items reported to `pytest_deselected`, and whether the "disabling pruning
due to unhandled modified files" warning was printed. -/
structure ModifyResult where
  items : List TestItem
  deselected : List TestItem
  warned : Bool

/-- `PruneSelector.pytest_collection_modifyitems`: remove the non-kept
items (walking from the end, so the removed items accumulate in reverse
order), then — if any modified file remains unaccounted for — put every
removed item back and warn instead of deselecting. -/
def modifyItems (env : SelectorEnv) (items : List TestItem) : ModifyResult :=
  let kept := items.filter (fun it => !(env.pruned it))
  let skipped := (items.filter (fun it => env.pruned it)).reverse
  let remaining := env.remainingAfter items
  if remaining = ∅ then
    { items := kept, deselected := skipped, warned := false }
  else
    { items := kept ++ skipped, deselected := [], warned := true }

/-- The deselection condition exactly as the specification words it
(claim C5): "(i) file_path is in the Graph and not in
affected_by_files(modified); (ii) data_path is neither in modified nor in
always_run; (iii) neither file_path nor name is in always_run; (iv) no
unhandled dynamic-import dependency for file_path".  Stated for
refinement comparison against `SelectorEnv.pruned`, which is translated
from the code. -/
def specClaimedDeselect (env : SelectorEnv) (it : TestItem) : Bool :=
  (env.inGraph it.file && decide (it.file ∉ env.affectedFiles))
  && (match it.data with
      | some d => decide (d ∉ env.modified) && decide (d ∉ env.alwaysRun)
      | none => true)
  && (decide (it.file ∉ env.alwaysRun) && decide (it.name ∉ env.alwaysRun))
  && decide (it.file ∉ env.unhandledDyn)

/-!
## The static module graph

Modelled from the spec: the `ModuleGraph` implementation (the native
`_prunepytest` extension) is not part of the Python source tree — only
its tests and callers are — so the graph, its transitive closure, the
reverse index, `affected_by_modules` and
`add_dynamic_dependencies_at_leaves` are modelled from §3, §4.2 and §8 of
the specification: a finite set of module nodes, each with a set of
direct dependencies; the closure of `a` contains every id reachable from
`a` via direct dependencies; the reverse index is the transpose of the
direct-dependency relation and `affected_by` is its transitive closure
from the seeds; the dynamic overlay extends the closure of the leaf and
of every module whose closure reaches the leaf with the extra
dependencies (the local-scope qualification of the extras is not
modelled; extras apply uniformly). -/
structure ModuleGraph where
  mods : Finset ModId
  deps : ModId → Finset ModId

/-- One round of forward propagation: keep `s` and add the direct
dependencies of everything in `s`. -/
def stepF (d : ModId → Finset ModId) (s : Finset ModId) : Finset ModId :=
  s ∪ s.biUnion d

/-- `k` rounds of propagation. -/
def iterF (d : ModId → Finset ModId) : Nat → Finset ModId → Finset ModId
  | 0, s => s
  | k + 1, s => iterF d k (stepF d s)

/-- The edge relation of a dependency map: `u ⟶ v` when `v` is a direct
dependency of `u`. -/
def DepEdge (d : ModId → Finset ModId) (u v : ModId) : Prop := v ∈ d u

namespace ModuleGraph

/-- Modelled from the spec: `module_depends_on(a)` — the transitive
closure of `a`'s direct dependencies, computed by saturating the
propagation step (|mods| rounds always suffice). -/
def closureOf (g : ModuleGraph) (a : ModId) : Finset ModId :=
  iterF g.deps g.mods.card (g.deps a)

/-- Modelled from the spec: the reverse index — the transpose of the
direct-dependency relation, restricted to the graph's modules. -/
def revDeps (g : ModuleGraph) (m : ModId) : Finset ModId :=
  g.mods.filter (fun u => m ∈ g.deps u)

/-- Modelled from the spec: `affected_by_modules(seeds)` — transitive
closure on the reverse index starting from the given seeds. -/
def affectedBy (g : ModuleGraph) (seeds : Finset ModId) : Finset ModId :=
  iterF g.revDeps g.mods.card (seeds.biUnion g.revDeps)

/-- Modelled from the spec: a leaf — "module with no in-edges in the
reverse graph" (glossary), i.e. a module with no direct dependencies. -/
def isLeaf (g : ModuleGraph) (m : ModId) : Prop := g.deps m = ∅

/-- Modelled from the spec: the closure of `m` after
`add_dynamic_dependencies_at_leaves(edges)` — the extras of each edge are
added to the closure of the named leaf and, walking the reverse index up
from the leaf, to the closure of each module that reaches it. -/
def addDynClosure (g : ModuleGraph) (edges : List (ModId × Finset ModId))
    (m : ModId) : Finset ModId :=
  g.closureOf m ∪
    (edges.foldr
      (fun e acc => if e.1 = m ∨ m ∈ g.affectedBy {e.1} then e.2 ∪ acc else acc)
      ∅)

end ModuleGraph

/-!
## Theorems
-/

/-- A tracker state with one tracked module `"q"` whose set object also
holds recorded dynamic users and imports; used to witness the
`with_dynamic` and context theorems on concrete data. -/
def sampleDynState : TrackerState :=
  { stack := [[]]
    cxt := 0
    arena := fun i => if i = 1 then {["d"]} else ∅
    arenaSize := 2
    tracked := fun m =>
      if m = (["q"] : ModId) then some 1
      else if m = ([] : ModId) then some 0 else none
    dynamicImports := fun a => if a = ((["b"], "f") : Anchor) then {["x"]} else ∅
    dynamicUsers := fun m => if m = (["q"] : ModId) then {(["b"], "f")} else ∅ }

/-- C9: for every state reached by `enter_context`/`exit_context` calls
(any state with a non-empty stack), `exit_context(expected)` raises
exactly when the top entry differs from `expected`, and the raised error
names both the actual popped entry and the expected one. -/
theorem exit_context_fail_iff (s : TrackerState) (expected actual : ModId)
    (h : s.stack.getLast? = some actual) :
    ((s.exitContext expected).2 = .ok ↔ actual = expected) ∧
      (actual ≠ expected →
        (s.exitContext expected).2 = .mismatch actual expected) := by
  unfold TrackerState.exitContext
  rw [h]
  by_cases he : actual = expected
  · simp [he]
  · simp [he]

/-- Witness for C9 at a concrete state: the stack `["", "a"]` exited with
`"b"` mismatches and reports actual `"a"` against expected `"b"`. -/
theorem exit_context_fail_iff_witness :
    (((TrackerState.init.enterContext ["a"]).exitContext ["b"]).2 =
        TrackerState.ExitResult.ok ↔ (["a"] : ModId) = ["b"]) ∧
      ((["a"] : ModId) ≠ ["b"] →
        ((TrackerState.init.enterContext ["a"]).exitContext ["b"]).2 =
          TrackerState.ExitResult.mismatch ["a"] ["b"]) :=
  exit_context_fail_iff (TrackerState.init.enterContext ["a"]) ["b"] ["a"]
    (by decide)

/-- C10: `exit_context` pops before comparing, so after a mismatched
(raising) call the context stack is one element shorter: the mismatched
top entry is lost rather than the state being left unchanged. -/
theorem exit_context_pops_on_mismatch (s : TrackerState)
    (expected actual : ModId) (h : s.stack.getLast? = some actual)
    (hne : actual ≠ expected) :
    (s.exitContext expected).1.stack = s.stack.dropLast ∧
      (s.exitContext expected).1.stack.length + 1 = s.stack.length := by
  have hs : s.stack ≠ [] := by
    intro he
    rw [he] at h
    exact Option.noConfusion h
  have h1 : s.stack.length ≠ 0 := fun hz => hs (List.length_eq_zero.mp hz)
  unfold TrackerState.exitContext
  rw [h]
  dsimp only
  rw [if_neg hne]
  refine ⟨rfl, ?_⟩
  simp only [List.length_dropLast]
  omega

/-- Witness for C10 at a concrete state: exiting `["", "a"]` with `"b"`
leaves the one-element stack `[""]`. -/
theorem exit_context_pops_on_mismatch_witness :
    ((TrackerState.init.enterContext ["a"]).exitContext ["b"]).1.stack =
        (TrackerState.init.enterContext ["a"]).stack.dropLast ∧
      ((TrackerState.init.enterContext ["a"]).exitContext ["b"]).1.stack.length + 1 =
        (TrackerState.init.enterContext ["a"]).stack.length :=
  exit_context_pops_on_mismatch (TrackerState.init.enterContext ["a"])
    ["b"] ["a"] (by decide) (by decide)

/-- C4: for every tracked module `m`, `with_dynamic(m)` returns exactly
the union of `tracked[m]` with the union, over all anchors recorded in
`dynamic_users[m]` (empty when there are none), of `dynamic_imports[a]`
(empty for anchors with no recorded imports). -/
theorem with_dynamic_spec (s : TrackerState) (m : ModId) (r : Nat)
    (h : s.tracked m = some r) (x : ModId) :
    x ∈ s.withDynamic m ↔
      x ∈ s.arena r ∨ ∃ a ∈ s.dynamicUsers m, x ∈ s.dynamicImports a := by
  simp [TrackerState.withDynamic, TrackerState.readTracked, h]

/-- Witness for C4 at a concrete state: `"x"` is in `with_dynamic("q")`
through the anchor `("b", "f")` recorded as a dynamic user of `"q"`. -/
theorem with_dynamic_spec_witness :
    (["x"] : ModId) ∈ sampleDynState.withDynamic ["q"] ↔
      (["x"] : ModId) ∈ sampleDynState.arena 1 ∨
        ∃ a ∈ sampleDynState.dynamicUsers ["q"],
          (["x"] : ModId) ∈ sampleDynState.dynamicImports a :=
  with_dynamic_spec sampleDynState ["q"] 1 (by decide) ["x"]

/-- Splitting a frame-list decomposition "some frame matches an ignore
and every earlier frame fails the anchor check" at the head frame. -/
theorem ignore_first_cons (ign anc : ModId → Finset Selector) (f : Frame)
    (rest : List Frame) :
    (∃ l₁ g l₂, f :: rest = l₁ ++ g :: l₂ ∧ frameIgn ign g = true ∧
        ∀ x ∈ l₁, frameAnc anc x = false) ↔
      (frameIgn ign f = true ∨
        (frameAnc anc f = false ∧
          ∃ l₁ g l₂, rest = l₁ ++ g :: l₂ ∧ frameIgn ign g = true ∧
            ∀ x ∈ l₁, frameAnc anc x = false)) := by
  constructor
  · rintro ⟨l₁, g, l₂, heq, hg, hanc⟩
    cases l₁ with
    | nil =>
      simp only [List.nil_append, List.cons.injEq] at heq
      exact Or.inl (heq.1 ▸ hg)
    | cons h t =>
      simp only [List.cons_append, List.cons.injEq] at heq
      refine Or.inr ⟨heq.1 ▸ hanc h (List.mem_cons_self h t), t, g, l₂, heq.2, hg, ?_⟩
      exact fun x hx => hanc x (List.mem_cons_of_mem h hx)
  · rintro (hf | ⟨hf, l₁, g, l₂, heq, hg, hanc⟩)
    · exact ⟨[], f, rest, rfl, hf, by simp⟩
    · refine ⟨f :: l₁, g, l₂, by rw [heq, List.cons_append], hg, ?_⟩
      intro x hx
      rcases List.mem_cons.mp hx with h | h
      · exact h ▸ hf
      · exact hanc x h

/-- C8 (amended): the classification walk returns the static
classification (the early `return -1, None` that records nothing) if and
only if some walked frame matches `dynamic_ignores` and *no
earlier-walked frame* matches `dynamic_anchors`: within one frame the
ignore check precedes the anchor check, but an anchor match on an earlier
frame breaks the walk before a later ignore frame is reached. -/
theorem classify_static_iff (ign anc : ModId → Finset Selector)
    (prefixes : Finset String) (frames : List Frame) (lc : Option Anchor) :
    classifyFrames ign anc prefixes frames lc = .static ↔
      ∃ l₁ g l₂, frames = l₁ ++ g :: l₂ ∧ frameIgn ign g = true ∧
        ∀ x ∈ l₁, frameAnc anc x = false := by
  induction frames generalizing lc with
  | nil =>
    simp only [classifyFrames]
    constructor
    · intro h
      exact DynClass.noConfusion h
    · rintro ⟨l₁, g, l₂, heq, -, -⟩
      exact absurd heq (by simp)
  | cons f rest ih =>
    rw [ignore_first_cons]
    cases hm : f.mod with
    | none =>
      have hfi : frameIgn ign f = false := by simp [frameIgn, hm]
      have hfa : frameAnc anc f = false := by simp [frameAnc, hm]
      simp only [classifyFrames, hm, hfi, hfa]
      simp [ih]
    | some m =>
      have hfi : frameIgn ign f = ignMatch ign m f.fn := by simp [frameIgn, hm]
      have hfa : frameAnc anc f = ancMatch anc m f.fn := by simp [frameAnc, hm]
      simp only [classifyFrames, hm, hfi, hfa]
      by_cases hig : ignMatch ign m f.fn = true
      · simp [hig]
      · have hig' : ignMatch ign m f.fn = false := by simpa using hig
        by_cases han : ancMatch anc m f.fn = true
        · simp [hig', han]
        · have han' : ancMatch anc m f.fn = false := by simpa using han
          by_cases hp : (m.head?).getD "" ∈ prefixes
          · simp [hig', han', hp, ih]
          · simp [hig', han', hp, ih]

/-- The ignore configuration of the repository's
`test_dynamic_ignore_overrides_anchors_before` scenario:
`dynamic_ignores = {"dynamic.by_caller": {"import_by_name"}}`. -/
def cexIgnores : ModId → Finset Selector :=
  fun m => if m = (["dynamic", "by_caller"] : ModId) then {["import_by_name"]} else ∅

/-- The anchor configuration of the same scenario:
`dynamic_anchors = {"dynamic.by_caller": {"Importer.by_name"}}`. -/
def cexAnchors : ModId → Finset Selector :=
  fun m => if m = (["dynamic", "by_caller"] : ModId) then {["Importer", "by_name"]} else ∅

/-- A walked stack in which the anchor-matching frame
(`Importer.by_name`, matched through its last selector component) is
walked *before* the frame matching the ignore entry `import_by_name`. -/
def cexFrames : List Frame :=
  [⟨some ["dynamic", "all_qux2"], "<module>"⟩,
   ⟨some ["dynamic", "by_caller"], "by_name"⟩,
   ⟨some ["dynamic", "by_caller"], "import_by_name"⟩]

/-- Counterexample to C8 as stated: the walked stack `cexFrames` contains
a frame matching `dynamic_ignores`, yet the classification is not static
— the walk breaks at the earlier anchor-matching frame and attributes the
load to the anchor `("dynamic.by_caller", "by_name")`. -/
theorem dynamic_ignore_precedence_cex :
    (∃ f ∈ cexFrames, frameIgn cexIgnores f = true) ∧
      classifyFrames cexIgnores cexAnchors {"dynamic"} cexFrames none =
        DynClass.dyn (some (["dynamic", "by_caller"], "by_name")) := by
  constructor
  · exact ⟨⟨some ["dynamic", "by_caller"], "import_by_name"⟩, by decide, by decide⟩
  · decide

/-- A selector environment in which the only modified file is itself a
test file covered by the graph: `affected_by_files({"t.py"}) = ∅` (the
reverse walk does not include its seeds), yet the code keeps the test
because `affected = affected_by_files(modified) | modified` contains it. -/
def cexSelEnv : SelectorEnv where
  inGraph := fun f => f = "t.py"
  affectedFiles := ∅
  modified := {"t.py"}
  alwaysRun := ∅
  unhandledDyn := ∅
  filterIrr := fun _ => true

/-- The collected test item living in the modified test file. -/
def cexSelItem : TestItem := ⟨"t.py", none, "test_one"⟩

/-- Counterexample to C5 as stated: the item satisfies all four
deselection conditions of the claim — its file is in the Graph and not in
`affected_by_files(modified)`, it has no data file, nothing is in
`always_run`, and there is no unhandled dynamic import — yet the
collaborator keeps it (deselects nothing), because the code tests
membership in `affected_by_files(modified) | modified` and the file is
itself modified. -/
theorem selector_deselect_cex :
    specClaimedDeselect cexSelEnv cexSelItem = true ∧
      cexSelEnv.pruned cexSelItem = false ∧
      (modifyItems cexSelEnv [cexSelItem]).deselected = [] := by
  refine ⟨by decide, by decide, ?_⟩
  decide

/-- C5 (amended): the collaborator deselects a collected item iff
(i) its `file_path` is in the Graph and not in
`affected_by_files(modified) ∪ modified`; (ii) its `data_path` (when
present) is neither in `affected_by_files(modified) ∪ modified` nor in
`always_run`; (iii) neither `file_path` nor `name` is in `always_run`;
and (iv) the Graph reports no unhandled dynamic-import dependency for
`file_path` — i.e. the claim holds with the affected set extended by the
modified files themselves. -/
theorem selector_deselect_iff (env : SelectorEnv) (it : TestItem) :
    env.pruned it = true ↔
      (env.inGraph it.file = true ∧ it.file ∉ env.affectedFiles ∪ env.modified) ∧
      (∀ d, it.data = some d →
        d ∉ env.affectedFiles ∪ env.modified ∧ d ∉ env.alwaysRun) ∧
      (it.file ∉ env.alwaysRun ∧ it.name ∉ env.alwaysRun) ∧
      it.file ∉ env.unhandledDyn := by
  cases hd : it.data with
  | none =>
    simp [SelectorEnv.pruned, SelectorEnv.shouldKeep, SelectorEnv.affected, hd]
    tauto
  | some d =>
    simp [SelectorEnv.pruned, SelectorEnv.shouldKeep, SelectorEnv.affected, hd]
    tauto

/-- C6: if some modified file is not in the Graph, is not the data file
of any collected item, is not in `always_run`, and is not rejected by
`filter_irrelevant_files`, then the collaborator deselects nothing —
every collected item remains in the final collection — and emits the
"disabling pruning" warning. -/
theorem selector_safety_fallback (env : SelectorEnv) (items : List TestItem)
    (f : String)
    (hmod : f ∈ env.modified)
    (hgraph : env.inGraph f = false)
    (hdata : ∀ it ∈ items, it.data ≠ some f)
    (hrun : f ∉ env.alwaysRun)
    (hirr : env.filterIrr f = true) :
    (modifyItems env items).deselected = [] ∧
      (modifyItems env items).warned = true ∧
      ∀ it ∈ items, it ∈ (modifyItems env items).items := by
  have hfold : ∀ (l : List TestItem) (r : Finset String),
      (∀ it ∈ l, it.data ≠ some f) → f ∈ r →
      f ∈ l.foldl env.discardStep r := by
    intro l
    induction l with
    | nil => exact fun r _ hr => hr
    | cons it rest ih =>
      intro r hd hr
      rw [List.foldl_cons]
      refine ih _ (fun x hx => hd x (List.mem_cons_of_mem it hx)) ?_
      have h1 : f ∈ (if env.inGraph it.file then r.erase it.file else r) := by
        by_cases hc : env.inGraph it.file
        · rw [if_pos hc]
          refine Finset.mem_erase.mpr ⟨?_, hr⟩
          intro hfe
          rw [hfe, hc] at hgraph
          exact Bool.noConfusion hgraph
        · rwa [if_neg hc]
      cases hdc : it.data with
      | none => simpa [SelectorEnv.discardStep, hdc] using h1
      | some d =>
        simp only [SelectorEnv.discardStep, hdc]
        refine Finset.mem_erase.mpr ⟨?_, h1⟩
        intro hfd
        exact hd it (List.mem_cons_self it rest) (by rw [hdc, hfd])
  have hrem : f ∈ env.remainingAfter items := by
    unfold SelectorEnv.remainingAfter
    refine Finset.mem_filter.mpr ⟨Finset.mem_filter.mpr ⟨?_, ?_⟩, hirr⟩
    · exact Finset.mem_sdiff.mpr ⟨hfold items env.modified hdata hmod, hrun⟩
    · rw [hgraph]
      rfl
  have hne : env.remainingAfter items ≠ ∅ := Finset.ne_empty_of_mem hrem
  unfold modifyItems
  rw [if_neg hne]
  refine ⟨rfl, rfl, ?_⟩
  intro it hit
  by_cases hp : env.pruned it = true
  · exact List.mem_append_right _
      (List.mem_reverse.mpr (List.mem_filter.mpr ⟨hit, hp⟩))
  · refine List.mem_append_left _ (List.mem_filter.mpr ⟨hit, ?_⟩)
    simp only [Bool.not_eq_true] at hp
    simp [hp]

/-- Witness for C6 at a concrete run: the modified set contains the
unknown file `"mystery.cfg"`, so the collected item in `"t.py"` — which
would otherwise be pruned — survives and the warning is raised. -/
theorem selector_safety_fallback_witness :
    (modifyItems
        { cexSelEnv with modified := {"mystery.cfg"} } [cexSelItem]).deselected = [] ∧
      (modifyItems
        { cexSelEnv with modified := {"mystery.cfg"} } [cexSelItem]).warned = true ∧
      ∀ it ∈ [cexSelItem], it ∈ (modifyItems
        { cexSelEnv with modified := {"mystery.cfg"} } [cexSelItem]).items :=
  selector_safety_fallback { cexSelEnv with modified := {"mystery.cfg"} }
    [cexSelItem] "mystery.cfg" (by decide) (by decide) (by decide) (by decide)
    (by decide)

/-- `firstIdx` finds an actual occurrence: the stack from the returned
index onwards starts with the searched name. -/
theorem firstIdx_drop (l : List ModId) (name : ModId) (i : Nat)
    (h : TrackerState.firstIdx l name = some i) :
    ∃ t, l.drop i = name :: t := by
  induction l generalizing i with
  | nil => exact Option.noConfusion h
  | cons x xs ih =>
    unfold TrackerState.firstIdx at h
    by_cases hx : x = name
    · rw [if_pos hx] at h
      injection h with h'
      exact ⟨xs, by rw [← h', List.drop_zero, hx]⟩
    · rw [if_neg hx] at h
      cases hj : TrackerState.firstIdx xs name with
      | none => rw [hj] at h; exact Option.noConfusion h
      | some j =>
        rw [hj] at h
        injection h with h'
        obtain ⟨t, ht⟩ := ih j hj
        exact ⟨t, by rw [← h', List.drop_succ_cons, ht]⟩

/-- `consolStep` never touches the stack or the current context. -/
theorem consolStep_stack_cxt (r : Nat) (s : TrackerState) (m : ModId) :
    (TrackerState.consolStep r s m).stack = s.stack ∧
      (TrackerState.consolStep r s m).cxt = s.cxt := by
  unfold TrackerState.consolStep
  cases s.tracked m with
  | none => exact ⟨rfl, rfl⟩
  | some d =>
    dsimp only
    by_cases hd : d = r
    · rw [if_pos hd]; exact ⟨rfl, rfl⟩
    · rw [if_neg hd]; exact ⟨rfl, rfl⟩

/-- A slot already pointing at the consolidated set object keeps pointing
at it through one consolidation step. -/
theorem consolStep_keeps_r (r : Nat) (s : TrackerState) (m x : ModId)
    (h : s.tracked x = some r) :
    (TrackerState.consolStep r s m).tracked x = some r := by
  unfold TrackerState.consolStep
  cases s.tracked m with
  | none => exact h
  | some d =>
    dsimp only
    by_cases hd : d = r
    · rw [if_pos hd]; exact h
    · rw [if_neg hd]
      unfold TrackerState.updTracked
      dsimp only
      by_cases hx : x = m
      · rw [if_pos hx]
      · rw [if_neg hx]; exact h

/-- One consolidation step keeps every `tracked[]` entry present. -/
theorem consolStep_isSome (r : Nat) (s : TrackerState) (m x : ModId)
    (h : (s.tracked x).isSome = true) :
    ((TrackerState.consolStep r s m).tracked x).isSome = true := by
  unfold TrackerState.consolStep
  cases s.tracked m with
  | none => exact h
  | some d =>
    dsimp only
    by_cases hd : d = r
    · rw [if_pos hd]; exact h
    · rw [if_neg hd]
      unfold TrackerState.updTracked
      dsimp only
      by_cases hx : x = m
      · rw [if_pos hx]; rfl
      · rw [if_neg hx]; exact h

/-- After one consolidation step on a present entry, the entry points at
the consolidated set object. -/
theorem consolStep_sets (r : Nat) (s : TrackerState) (m : ModId)
    (h : (s.tracked m).isSome = true) :
    (TrackerState.consolStep r s m).tracked m = some r := by
  unfold TrackerState.consolStep
  cases hm : s.tracked m with
  | none => rw [hm] at h; exact Bool.noConfusion h
  | some d =>
    dsimp only
    by_cases hd : d = r
    · rw [if_pos hd]; rw [hm, hd]
    · rw [if_neg hd]
      unfold TrackerState.updTracked
      dsimp only
      rw [if_pos rfl]

/-- A slot pointing at the consolidated set object still points at it
after a whole consolidation pass. -/
theorem consolidate_keeps_r (r : Nat) (ms : List ModId) (s : TrackerState)
    (x : ModId) (h : s.tracked x = some r) :
    (TrackerState.consolidate r s ms).tracked x = some r := by
  induction ms generalizing s with
  | nil => exact h
  | cons m rest ih =>
    exact ih (TrackerState.consolStep r s m) (consolStep_keeps_r r s m x h)

/-- A consolidation pass keeps every `tracked[]` entry present. -/
theorem consolidate_isSome (r : Nat) (ms : List ModId) (s : TrackerState)
    (x : ModId) (h : (s.tracked x).isSome = true) :
    ((TrackerState.consolidate r s ms).tracked x).isSome = true := by
  induction ms generalizing s with
  | nil => exact h
  | cons m rest ih =>
    exact ih (TrackerState.consolStep r s m) (consolStep_isSome r s m x h)

/-- After a consolidation pass, every listed (present) entry points at
the consolidated set object. -/
theorem consolidate_sets (r : Nat) (ms : List ModId) (s : TrackerState)
    (h : ∀ m ∈ ms, (s.tracked m).isSome = true) :
    ∀ m ∈ ms, (TrackerState.consolidate r s ms).tracked m = some r := by
  induction ms generalizing s with
  | nil => intro m hm; exact absurd hm (List.not_mem_nil m)
  | cons m0 rest ih =>
    intro m hm
    rcases List.mem_cons.mp hm with rfl | hm'
    · exact consolidate_keeps_r r rest _ m
        (consolStep_sets r s m (h m (List.mem_cons_self m rest)))
    · exact ih (TrackerState.consolStep r s m0)
        (fun x hx => consolStep_isSome r s m0 x
          (h x (List.mem_cons_of_mem m0 hx))) m hm'

/-- A consolidation pass never touches the stack or the current context. -/
theorem consolidate_stack_cxt (r : Nat) (ms : List ModId) (s : TrackerState) :
    (TrackerState.consolidate r s ms).stack = s.stack ∧
      (TrackerState.consolidate r s ms).cxt = s.cxt := by
  induction ms generalizing s with
  | nil => exact ⟨rfl, rfl⟩
  | cons m rest ih =>
    obtain ⟨h1, h2⟩ := ih (TrackerState.consolStep r s m)
    obtain ⟨h3, h4⟩ := consolStep_stack_cxt r s m
    exact ⟨h1.trans h3, h2.trans h4⟩

/-- C1: when `_find_and_load_helper` detects an import cycle (the loaded
`name` is already on the stack, at first index `i`), every module of the
cycle `stack[i:]` ends with `tracked[]` holding the *same* set object
`r`, which is the set object the first participant (`name`, at
`stack[i]`) already had — so that object is preserved, the current
context becomes it, and any later insertion through the current context
(e.g. from an enclosing outer cycle) is read back by every cycle member
without further bookkeeping. -/
theorem cycle_consolidation (s : TrackerState) (name : ModId) (r i : Nat)
    (hr : s.tracked name = some r)
    (hi : TrackerState.firstIdx s.stack name = some i)
    (hstk : ∀ m ∈ s.stack, (s.tracked m).isSome = true) :
    (∀ m ∈ s.stack.drop i, (s.trackEntry name).1.tracked m = some r) ∧
      (s.trackEntry name).1.tracked name = s.tracked name ∧
      (s.trackEntry name).1.cxt = r ∧
      (∀ x : ModId, ∀ m ∈ s.stack.drop i,
        ((s.trackEntry name).1.insertCur x).readTracked m =
          insert x ((s.trackEntry name).1.arena r)) := by
  have hr0 : (s.insertCur name).tracked name = some r := hr
  have hi0 : TrackerState.firstIdx (s.insertCur name).stack name = some i := hi
  have hstk0 : ∀ m ∈ (s.insertCur name).stack,
      ((s.insertCur name).tracked m).isSome = true := hstk
  obtain ⟨t, ht⟩ := firstIdx_drop s.stack name i hi
  have htl : (s.stack.drop i).tail = t := by rw [ht, List.tail_cons]
  have hmain : (s.trackEntry name).1 =
      { TrackerState.consolidate r (s.insertCur name) ((s.stack.drop i).tail)
        with cxt := r } := by
    unfold TrackerState.trackEntry
    dsimp only
    rw [hr0, hi0]
    rfl
  have htail : ∀ m ∈ t, ((s.insertCur name).tracked m).isSome = true := by
    intro m hm
    refine hstk0 m (List.drop_subset i s.stack ?_)
    rw [ht]
    exact List.mem_cons_of_mem name hm
  have hset : ∀ m ∈ s.stack.drop i, (s.trackEntry name).1.tracked m = some r := by
    intro m hm
    rw [hmain]
    show (TrackerState.consolidate r (s.insertCur name)
      ((s.stack.drop i).tail)).tracked m = some r
    rw [htl]
    rw [ht] at hm
    rcases List.mem_cons.mp hm with h | hm'
    · rw [h]
      exact consolidate_keeps_r r t _ name hr0
    · exact consolidate_sets r t (s.insertCur name) htail m hm'
  refine ⟨hset, ?_, ?_, ?_⟩
  · rw [hr]
    refine hset name ?_
    rw [ht]
    exact List.mem_cons_self name t
  · rw [hmain]
  · intro x m hm
    have hcx : (s.trackEntry name).1.cxt = r := by rw [hmain]
    have htr : ((s.trackEntry name).1.insertCur x).tracked m =
        (s.trackEntry name).1.tracked m := rfl
    unfold TrackerState.readTracked
    rw [htr, hset m hm]
    show TrackerState.updArena (s.trackEntry name).1.arena
      (s.trackEntry name).1.cxt
      (insert x ((s.trackEntry name).1.arena (s.trackEntry name).1.cxt)) r =
      insert x ((s.trackEntry name).1.arena r)
    rw [hcx]
    unfold TrackerState.updArena
    rw [if_pos rfl]

/-- A tracker state mid-way through the sibling-cycle scenario of
`test_cycle_siblings`: `a_to_b` and `b_to_c` are loading (on the stack)
when `b_to_c` re-imports `a_to_b`, closing the cycle. -/
def sampleCycleState : TrackerState :=
  { stack := [[], ["cycles", "a_to_b"], ["cycles", "b_to_c"]]
    cxt := 2
    arena := fun i =>
      if i = 1 then {["cycles"], ["cycles", "b_to_c"]}
      else if i = 2 then {["cycles"]} else ∅
    arenaSize := 3
    tracked := fun m =>
      if m = (["cycles", "a_to_b"] : ModId) then some 1
      else if m = (["cycles", "b_to_c"] : ModId) then some 2
      else if m = ([] : ModId) then some 0 else none
    dynamicImports := fun _ => ∅
    dynamicUsers := fun _ => ∅ }

/-- Witness for C1 on the concrete cycle `a_to_b → b_to_c → a_to_b`:
after consolidation both participants share the set object of `a_to_b`
and read back a later insertion identically. -/
theorem cycle_consolidation_witness :
    (∀ m ∈ sampleCycleState.stack.drop 1,
        (sampleCycleState.trackEntry ["cycles", "a_to_b"]).1.tracked m = some 1) ∧
      (sampleCycleState.trackEntry ["cycles", "a_to_b"]).1.tracked
          ["cycles", "a_to_b"] = sampleCycleState.tracked ["cycles", "a_to_b"] ∧
      (sampleCycleState.trackEntry ["cycles", "a_to_b"]).1.cxt = 1 ∧
      (∀ x : ModId, ∀ m ∈ sampleCycleState.stack.drop 1,
        ((sampleCycleState.trackEntry ["cycles", "a_to_b"]).1.insertCur x).readTracked m =
          insert x ((sampleCycleState.trackEntry ["cycles", "a_to_b"]).1.arena 1)) :=
  cycle_consolidation sampleCycleState ["cycles", "a_to_b"] 1 1
    (by decide) (by decide) (by decide)

/-- `reifyParent` only touches the arena and the dynamic-user map. -/
theorem reifyParent_stack_tracked (u : TrackerState) (name : ModId) :
    (u.reifyParent name).stack = u.stack ∧
      (u.reifyParent name).tracked = u.tracked ∧
      (u.reifyParent name).cxt = u.cxt := by
  unfold TrackerState.reifyParent
  by_cases h1 : name.length ≤ 1
  · rw [if_pos h1]; exact ⟨rfl, rfl, rfl⟩
  · rw [if_neg h1]
    dsimp only
    by_cases h2 : name.dropLast ∈ u.arena u.cxt
    · rw [if_pos h2]; exact ⟨rfl, rfl, rfl⟩
    · rw [if_neg h2]
      cases u.tracked name.dropLast with
      | none => exact ⟨rfl, rfl, rfl⟩
      | some p =>
        dsimp only
        by_cases h3 : u.dynamicUsers name.dropLast ≠ ∅
        · rw [if_pos h3]; exact ⟨rfl, rfl, rfl⟩
        · rw [if_neg h3]; exact ⟨rfl, rfl, rfl⟩

/-- `finishLoad` pops exactly when a context was pushed, and never
changes the `tracked[]` map. -/
theorem finishLoad_stack_tracked (u : TrackerState) (name : ModId)
    (nc he : Bool) :
    (TrackerState.finishLoad u name nc he).stack =
        (if nc then u.stack.dropLast else u.stack) ∧
      (TrackerState.finishLoad u name nc he).tracked = u.tracked := by
  unfold TrackerState.finishLoad
  cases nc with
  | false => exact ⟨rfl, rfl⟩
  | true =>
    dsimp only
    cases u.tracked (u.stack.dropLast.getLast?.getD []) with
    | none => exact ⟨rfl, rfl⟩
    | some down =>
      dsimp only
      by_cases h2 : down = u.cxt
      · rw [if_pos h2]
        cases he with
        | false => exact ⟨rfl, rfl⟩
        | true => exact ⟨rfl, rfl⟩
      · rw [if_neg h2]
        cases he with
        | false => exact ⟨rfl, rfl⟩
        | true => exact ⟨rfl, rfl⟩

/-- On the error path of the `finally` block, the failed `name` is
discarded from the parent's dependency set: whatever set object the
parent's `tracked[]` slot holds afterwards, it does not contain `name`. -/
theorem finishLoad_err_discards (u : TrackerState) (name : ModId) (d : Nat)
    (hd : u.tracked (u.stack.dropLast.getLast?.getD []) = some d) :
    name ∉ (TrackerState.finishLoad u name true true).arena d := by
  unfold TrackerState.finishLoad
  dsimp only
  rw [hd]
  dsimp only
  by_cases h2 : d = u.cxt
  · rw [if_pos h2]
    simp [TrackerState.updArena]
  · rw [if_neg h2]
    simp [TrackerState.updArena]

/-- The entry phase pushes `name` exactly when it reports a new context. -/
theorem trackEntry_stack (s : TrackerState) (name : ModId) :
    (s.trackEntry name).1.stack =
      (if (s.trackEntry name).2 then s.stack ++ [name] else s.stack) := by
  unfold TrackerState.trackEntry
  dsimp only
  cases ht : (s.insertCur name).tracked name with
  | none => rfl
  | some r =>
    cases hf : TrackerState.firstIdx (s.insertCur name).stack name with
    | none => rfl
    | some i =>
      show (TrackerState.consolidate r (s.insertCur name)
        ((s.insertCur name).stack.drop i).tail).stack = s.stack
      exact (consolidate_stack_cxt r _ _).1

/-- The entry phase reports a new context exactly on a fresh name. -/
theorem trackEntry_fresh (s : TrackerState) (name : ModId)
    (h : s.tracked name = none) :
    (s.trackEntry name).2 = true := by
  have h0 : (s.insertCur name).tracked name = none := h
  unfold TrackerState.trackEntry
  simp [h0]

/-- The `tracked[]` map after the entry phase: unchanged, extended with a
fresh entry for `name`, or the outcome of a consolidation pass. -/
theorem trackEntry_tracked (s : TrackerState) (name : ModId) :
    (s.trackEntry name).1.tracked = s.tracked ∨
      (s.trackEntry name).1.tracked =
        TrackerState.updTracked s.tracked name (some s.arenaSize) ∨
      ∃ r, s.tracked name = some r ∧ ∃ ms, (s.trackEntry name).1.tracked =
        (TrackerState.consolidate r (s.insertCur name) ms).tracked := by
  cases hs : s.tracked name with
  | none =>
    have h0 : (s.insertCur name).tracked name = none := hs
    unfold TrackerState.trackEntry
    simp only [h0]
    exact Or.inr (Or.inl rfl)
  | some r =>
    have h0 : (s.insertCur name).tracked name = some r := hs
    unfold TrackerState.trackEntry
    simp only [h0]
    cases hf : TrackerState.firstIdx (s.insertCur name).stack name with
    | none => exact Or.inl rfl
    | some i =>
      exact Or.inr (Or.inr ⟨r, rfl,
        ⟨((s.insertCur name).stack.drop i).tail, rfl⟩⟩)

/-- The entry phase never removes a `tracked[]` entry. -/
theorem trackEntry_isSome (s : TrackerState) (name x : ModId)
    (h : (s.tracked x).isSome = true) :
    ((s.trackEntry name).1.tracked x).isSome = true := by
  rcases trackEntry_tracked s name with h1 | h1 | ⟨r, -, ms, h1⟩
  · rw [h1]; exact h
  · rw [h1]
    unfold TrackerState.updTracked
    by_cases hx : x = name
    · rw [if_pos hx]; rfl
    · rw [if_neg hx]; exact h
  · rw [h1]
    exact consolidate_isSome r ms (s.insertCur name) x h

mutual

/-- `_find_and_load_helper` restores the loading stack on every exit
path: whatever it pushed, the `finally` block pops. -/
theorem runLoad_stack (s : TrackerState) (t : LoadTree) :
    (runLoad s t).1.stack = s.stack := by
  cases t with
  | node name children ok =>
    unfold runLoad
    dsimp only
    generalize hE : s.trackEntry name = e
    obtain ⟨es, eb⟩ := e
    have he : es.stack = (if eb then s.stack ++ [name] else s.stack) := by
      have h0 := trackEntry_stack s name
      rw [hE] at h0
      exact h0
    have hc : (runChildren es children).1.stack = es.stack :=
      runChildren_stack es children
    by_cases hcc : ((runChildren es children).2 && ok) = true
    · rw [if_pos hcc]
      dsimp only
      rw [(finishLoad_stack_tracked ((runChildren es children).1.reifyParent name)
        name eb false).1]
      rw [(reifyParent_stack_tracked (runChildren es children).1 name).1, hc, he]
      cases eb <;> simp
    · rw [if_neg hcc]
      dsimp only
      by_cases hdel : (eb && !(decide (name ∈ (runChildren es children).1.stack.dropLast))) = true
      · rw [if_pos hdel]
        rw [(finishLoad_stack_tracked _ name eb true).1]
        show (if eb then (runChildren es children).1.stack.dropLast
          else (runChildren es children).1.stack) = s.stack
        rw [hc, he]
        cases eb <;> simp
      · rw [if_neg hdel]
        rw [(finishLoad_stack_tracked _ name eb true).1]
        rw [hc, he]
        cases eb <;> simp

/-- `runChildren` restores the loading stack. -/
theorem runChildren_stack (s : TrackerState) (l : List LoadTree) :
    (runChildren s l).1.stack = s.stack := by
  cases l with
  | nil => rfl
  | cons c cs =>
    unfold runChildren
    dsimp only
    by_cases h : (runLoad s c).2 = true
    · rw [if_pos h]
      rw [runChildren_stack (runLoad s c).1 cs, runLoad_stack s c]
    · rw [if_neg h]
      exact runLoad_stack s c

end

/-- A fresh entry phase points `tracked[name]` at the newly allocated set
object. -/
theorem trackEntry_fresh_tracked (s : TrackerState) (name : ModId)
    (h : s.tracked name = none) :
    (s.trackEntry name).1.tracked name = some s.arenaSize := by
  have h0 : (s.insertCur name).tracked name = none := h
  unfold TrackerState.trackEntry
  simp only [h0]
  unfold TrackerState.updTracked
  rw [if_pos rfl]
  rfl

mutual

/-- A load never removes the `tracked[]` entry of a module below it on
the loading stack: the failure rollback only ever deletes the entry of a
name absent from the rest of the stack. -/
theorem runLoad_tracked_isSome (s : TrackerState) (t : LoadTree) (x : ModId)
    (hx : x ∈ s.stack) (h : (s.tracked x).isSome = true) :
    ((runLoad s t).1.tracked x).isSome = true := by
  cases t with
  | node name children ok =>
    unfold runLoad
    dsimp only
    generalize hE : s.trackEntry name = e
    obtain ⟨es, eb⟩ := e
    have hes : es.stack = (if eb then s.stack ++ [name] else s.stack) := by
      have h0 := trackEntry_stack s name
      rw [hE] at h0
      exact h0
    have hxe : x ∈ es.stack := by
      rw [hes]
      cases eb
      · simpa using hx
      · simp [hx]
    have hte : (es.tracked x).isSome = true := by
      have h0 := trackEntry_isSome s name x h
      rw [hE] at h0
      exact h0
    have hcs : ((runChildren es children).1.tracked x).isSome = true :=
      runChildren_tracked_isSome es children x hxe hte
    have hcstack : (runChildren es children).1.stack = es.stack :=
      runChildren_stack es children
    by_cases hcc : ((runChildren es children).2 && ok) = true
    · rw [if_pos hcc]
      dsimp only
      rw [(finishLoad_stack_tracked _ name eb false).2]
      rw [(reifyParent_stack_tracked (runChildren es children).1 name).2.1]
      exact hcs
    · rw [if_neg hcc]
      dsimp only
      by_cases hdel : (eb &&
          !(decide (name ∈ (runChildren es children).1.stack.dropLast))) = true
      · rw [if_pos hdel]
        rw [(finishLoad_stack_tracked _ name eb true).2]
        rw [Bool.and_eq_true] at hdel
        obtain ⟨hb, hnm⟩ := hdel
        have hnp : name ∉ (runChildren es children).1.stack.dropLast := by
          simpa using hnm
        have hxn : x ≠ name := by
          intro hxeq
          apply hnp
          rw [hcstack, hes, hb]
          simp only [if_true]
          rw [List.dropLast_concat]
          exact hxeq ▸ hx
        show (TrackerState.updTracked
          (runChildren es children).1.tracked name none x).isSome = true
        unfold TrackerState.updTracked
        rw [if_neg hxn]
        exact hcs
      · rw [if_neg hdel]
        rw [(finishLoad_stack_tracked _ name eb true).2]
        exact hcs

/-- `runChildren` never removes the `tracked[]` entry of a module on the
loading stack. -/
theorem runChildren_tracked_isSome (s : TrackerState) (l : List LoadTree)
    (x : ModId) (hx : x ∈ s.stack) (h : (s.tracked x).isSome = true) :
    ((runChildren s l).1.tracked x).isSome = true := by
  cases l with
  | nil => exact h
  | cons c cs =>
    unfold runChildren
    dsimp only
    by_cases hr : (runLoad s c).2 = true
    · rw [if_pos hr]
      exact runChildren_tracked_isSome (runLoad s c).1 cs x
        (by rw [runLoad_stack s c]; exact hx)
        (runLoad_tracked_isSome s c x hx h)
    · rw [if_neg hr]
      exact runLoad_tracked_isSome s c x hx h

end

/-- C7: when the underlying loader raises during a load that pushed a
fresh entry for `name` (the result is a failure, re-raised to the
caller), the tracker removes `tracked[name]` iff `name` does not also
appear elsewhere on the loading stack, pops the fresh stack entry
(restoring the stack), and discards `name` from the parent's dependency
set so no spurious dependency on the failed module is reported. -/
theorem load_failure_rollback (s : TrackerState) (name : ModId)
    (children : List LoadTree) (ok : Bool)
    (hfresh : s.tracked name = none)
    (hne : s.stack ≠ [])
    (hfail : (runLoad s (.node name children ok)).2 = false) :
    ((runLoad s (.node name children ok)).1.tracked name = none ↔
        name ∉ s.stack) ∧
      (runLoad s (.node name children ok)).1.stack = s.stack ∧
      (∀ d, (runLoad s (.node name children ok)).1.tracked
          (s.stack.getLast hne) = some d →
        name ∉ (runLoad s (.node name children ok)).1.arena d) := by
  have heb : (s.trackEntry name).2 = true := trackEntry_fresh s name hfresh
  have hcc : ¬(((runChildren (s.trackEntry name).1 children).2 && ok) = true) := by
    intro hcc'
    have h2 : (runLoad s (.node name children ok)).2 = true := by
      unfold runLoad
      dsimp only
      rw [if_pos hcc']
    rw [hfail] at h2
    exact Bool.noConfusion h2
  have hCs : (runChildren (s.trackEntry name).1 children).1.stack =
      s.stack ++ [name] := by
    rw [runChildren_stack, trackEntry_stack, heb]
    simp
  have hgetp : (s.stack.getLast?).getD [] = s.stack.getLast hne := by
    rw [List.getLast?_eq_getLast s.stack hne]
    rfl
  by_cases hm : name ∈ s.stack
  · have hcond : ((s.trackEntry name).2 &&
        !(decide (name ∈
          (runChildren (s.trackEntry name).1 children).1.stack.dropLast))) = false := by
      rw [heb, hCs, List.dropLast_concat]
      simp [hm]
    have hrl : runLoad s (.node name children ok) =
        (TrackerState.finishLoad (runChildren (s.trackEntry name).1 children).1
          name (s.trackEntry name).2 true, false) := by
      unfold runLoad
      dsimp only
      rw [if_neg hcc, if_neg (by rw [hcond]; exact Bool.false_ne_true)]
    have htsome : (((runChildren (s.trackEntry name).1 children).1.tracked
        name).isSome) = true := by
      refine runChildren_tracked_isSome (s.trackEntry name).1 children name ?_ ?_
      · rw [trackEntry_stack, heb]
        simp
      · rw [trackEntry_fresh_tracked s name hfresh]
        rfl
    refine ⟨?_, runLoad_stack s _, ?_⟩
    · rw [hrl]
      dsimp only
      rw [(finishLoad_stack_tracked _ name (s.trackEntry name).2 true).2]
      constructor
      · intro hnone
        rw [hnone] at htsome
        exact Bool.noConfusion htsome
      · intro hns
        exact absurd hm hns
    · intro d hd
      rw [hrl] at hd ⊢
      dsimp only at hd ⊢
      rw [heb] at hd ⊢
      rw [(finishLoad_stack_tracked _ name true true).2] at hd
      refine finishLoad_err_discards _ name d ?_
      rw [hCs, List.dropLast_concat, hgetp]
      exact hd
  · have hcond : ((s.trackEntry name).2 &&
        !(decide (name ∈
          (runChildren (s.trackEntry name).1 children).1.stack.dropLast))) = true := by
      rw [heb, hCs, List.dropLast_concat]
      simp [hm]
    have hrl : runLoad s (.node name children ok) =
        (TrackerState.finishLoad
          { (runChildren (s.trackEntry name).1 children).1 with
            tracked := TrackerState.updTracked
              (runChildren (s.trackEntry name).1 children).1.tracked name none }
          name (s.trackEntry name).2 true, false) := by
      unfold runLoad
      dsimp only
      rw [if_neg hcc, if_pos hcond]
    refine ⟨?_, runLoad_stack s _, ?_⟩
    · rw [hrl]
      dsimp only
      rw [(finishLoad_stack_tracked _ name (s.trackEntry name).2 true).2]
      show TrackerState.updTracked
        (runChildren (s.trackEntry name).1 children).1.tracked name none name =
          none ↔ name ∉ s.stack
      unfold TrackerState.updTracked
      rw [if_pos rfl]
      exact iff_of_true rfl hm
    · intro d hd
      rw [hrl] at hd ⊢
      dsimp only at hd ⊢
      rw [heb] at hd ⊢
      rw [(finishLoad_stack_tracked _ name true true).2] at hd
      refine finishLoad_err_discards _ name d ?_
      show TrackerState.updTracked
        (runChildren (s.trackEntry name).1 children).1.tracked name none
          ((({ (runChildren (s.trackEntry name).1 children).1 with
            tracked := TrackerState.updTracked
              (runChildren (s.trackEntry name).1 children).1.tracked name
                none } : TrackerState).stack.dropLast.getLast?).getD []) = some d
      rw [show ({ (runChildren (s.trackEntry name).1 children).1 with
            tracked := TrackerState.updTracked
              (runChildren (s.trackEntry name).1 children).1.tracked name
                none } : TrackerState).stack =
          (runChildren (s.trackEntry name).1 children).1.stack from rfl]
      rw [hCs, List.dropLast_concat, hgetp]
      exact hd

/-- Witness for C7 on a concrete failing load: loading `"a"` from the
initial state with a failing body removes `tracked["a"]`, restores the
stack `[""]`, and leaves no `"a"` in the root context's set. -/
theorem load_failure_rollback_witness :
    ((runLoad TrackerState.init (.node ["a"] [] false)).1.tracked ["a"] = none ↔
        (["a"] : ModId) ∉ TrackerState.init.stack) ∧
      (runLoad TrackerState.init (.node ["a"] [] false)).1.stack =
        TrackerState.init.stack ∧
      (∀ d, (runLoad TrackerState.init (.node ["a"] [] false)).1.tracked
          (TrackerState.init.stack.getLast (by decide)) = some d →
        (["a"] : ModId) ∉
          (runLoad TrackerState.init (.node ["a"] [] false)).1.arena d) :=
  load_failure_rollback TrackerState.init ["a"] [] false (by decide) (by decide)
    (by decide)

/-- One propagation round only grows the set. -/
theorem subset_stepF (d : ModId → Finset ModId) (s : Finset ModId) :
    s ⊆ stepF d s :=
  Finset.subset_union_left

/-- Propagation is monotone. -/
theorem stepF_mono (d : ModId → Finset ModId) {s t : Finset ModId}
    (h : s ⊆ t) : stepF d s ⊆ stepF d t := by
  unfold stepF
  refine Finset.union_subset_union h ?_
  intro x hx
  obtain ⟨i, hi, hxi⟩ := Finset.mem_biUnion.mp hx
  exact Finset.mem_biUnion.mpr ⟨i, h hi, hxi⟩

/-- Iterated propagation is monotone. -/
theorem iterF_mono (d : ModId → Finset ModId) (k : Nat) {s t : Finset ModId}
    (h : s ⊆ t) : iterF d k s ⊆ iterF d k t := by
  induction k generalizing s t with
  | zero => exact h
  | succ k ih => exact ih (stepF_mono d h)

/-- The start set is contained in any number of propagation rounds. -/
theorem subset_iterF (d : ModId → Finset ModId) (k : Nat) (s : Finset ModId) :
    s ⊆ iterF d k s := by
  induction k generalizing s with
  | zero => exact Finset.Subset.refl s
  | succ k ih => exact (subset_stepF d s).trans (ih (stepF d s))

/-- The propagation step commutes with iteration. -/
theorem iterF_step_comm (d : ModId → Finset ModId) (k : Nat) (s : Finset ModId) :
    iterF d k (stepF d s) = stepF d (iterF d k s) := by
  induction k generalizing s with
  | zero => rfl
  | succ k ih =>
    show iterF d k (stepF d (stepF d s)) = stepF d (iterF d k (stepF d s))
    rw [ih (stepF d s)]

/-- Peeling one round off the outside. -/
theorem iterF_succ_out (d : ModId → Finset ModId) (k : Nat) (s : Finset ModId) :
    iterF d (k + 1) s = stepF d (iterF d k s) := by
  show iterF d k (stepF d s) = stepF d (iterF d k s)
  exact iterF_step_comm d k s

/-- A fixpoint of the propagation step absorbs any number of rounds. -/
theorem iterF_of_fix (d : ModId → Finset ModId) (k : Nat) (s : Finset ModId)
    (h : stepF d s = s) : iterF d k s = s := by
  induction k with
  | zero => rfl
  | succ k ih =>
    rw [iterF_succ_out, ih, h]

/-- Iteration splits into two runs. -/
theorem iterF_add (d : ModId → Finset ModId) (a b : Nat) (s : Finset ModId) :
    iterF d (a + b) s = iterF d a (iterF d b s) := by
  induction b generalizing s with
  | zero => rfl
  | succ b ih =>
    show iterF d (a + b + 1) s = iterF d a (iterF d b (stepF d s))
    rw [show a + b + 1 = a + b + 1 from rfl]
    show iterF d (a + b) (stepF d s) = iterF d a (iterF d b (stepF d s))
    exact ih (stepF d s)

/-- Iterated propagation stays inside a closed universe. -/
theorem iterF_subset_univ (d : ModId → Finset ModId) (mods : Finset ModId)
    (k : Nat) (s : Finset ModId) (hs : s ⊆ mods)
    (hd : ∀ m ∈ mods, d m ⊆ mods) : iterF d k s ⊆ mods := by
  induction k generalizing s with
  | zero => exact hs
  | succ k ih =>
    refine ih (stepF d s) ?_
    unfold stepF
    refine Finset.union_subset hs (Finset.biUnion_subset.mpr ?_)
    intro x hx
    exact hd x (hs hx)

/-- If the iteration is not yet saturated after `k` rounds, it was not
saturated at any earlier round either. -/
theorem iterF_not_fix_before (d : ModId → Finset ModId) (k j : Nat)
    (s : Finset ModId) (hj : j ≤ k)
    (h : stepF d (iterF d k s) ≠ iterF d k s) :
    stepF d (iterF d j s) ≠ iterF d j s := by
  intro hfix
  apply h
  obtain ⟨c, rfl⟩ := Nat.exists_eq_add_of_le hj
  rw [Nat.add_comm j c, iterF_add d c j s, iterF_of_fix d c _ hfix, hfix]

/-- Each unsaturated round strictly grows the set, so after `k`
unsaturated rounds the set has at least `k` elements. -/
theorem iterF_card_ge (d : ModId → Finset ModId) (k : Nat) (s : Finset ModId)
    (h : ∀ j < k, stepF d (iterF d j s) ≠ iterF d j s) :
    k ≤ (iterF d k s).card := by
  induction k with
  | zero => exact Nat.zero_le _
  | succ k ih =>
    have h1 : k ≤ (iterF d k s).card :=
      ih (fun j hj => h j (Nat.lt_succ_of_lt hj))
    have h2 : iterF d k s ⊂ stepF d (iterF d k s) :=
      HasSubset.Subset.ssubset_of_ne (subset_stepF d _)
        (Ne.symm (h k (Nat.lt_succ_self k)))
    have h3 := Finset.card_lt_card h2
    rw [iterF_succ_out]
    omega

/-- Saturation: `|mods|` propagation rounds reach a fixpoint whenever the
start set and the dependency map live inside `mods`. -/
theorem iterF_saturated (d : ModId → Finset ModId) (mods : Finset ModId)
    (s : Finset ModId) (hs : s ⊆ mods) (hd : ∀ m ∈ mods, d m ⊆ mods) :
    stepF d (iterF d mods.card s) = iterF d mods.card s := by
  by_contra hne
  have hgrow : mods.card + 1 ≤ (iterF d (mods.card + 1) s).card := by
    refine iterF_card_ge d (mods.card + 1) s ?_
    intro j hj
    rcases Nat.lt_succ_iff_lt_or_eq.mp hj with hj' | rfl
    · exact iterF_not_fix_before d mods.card j s (Nat.le_of_lt hj') hne
    · exact hne
  have hbound : (iterF d (mods.card + 1) s).card ≤ mods.card :=
    Finset.card_le_card (iterF_subset_univ d mods (mods.card + 1) s hs hd)
  omega

/-- Soundness of iterated propagation: everything it reaches is reachable
through the edge relation from the start set. -/
theorem iterF_sound (d : ModId → Finset ModId) (k : Nat) (s : Finset ModId)
    (x : ModId) (hx : x ∈ iterF d k s) :
    ∃ y ∈ s, Relation.ReflTransGen (DepEdge d) y x := by
  induction k generalizing s with
  | zero => exact ⟨x, hx, Relation.ReflTransGen.refl⟩
  | succ k ih =>
    obtain ⟨y, hy, hr⟩ := ih (stepF d s) hx
    rcases Finset.mem_union.mp hy with hy' | hy'
    · exact ⟨y, hy', hr⟩
    · obtain ⟨z, hz, hyz⟩ := Finset.mem_biUnion.mp hy'
      exact ⟨z, hz, Relation.ReflTransGen.head hyz hr⟩

/-- Completeness of saturated propagation: everything reachable from the
start set is reached in `|mods|` rounds. -/
theorem iterF_complete (d : ModId → Finset ModId) (mods : Finset ModId)
    (s : Finset ModId) (hs : s ⊆ mods) (hd : ∀ m ∈ mods, d m ⊆ mods)
    (y x : ModId) (hy : y ∈ s)
    (hr : Relation.ReflTransGen (DepEdge d) y x) :
    x ∈ iterF d mods.card s := by
  induction hr with
  | refl => exact subset_iterF d mods.card s hy
  | tail _ hzx ih =>
    rw [← iterF_saturated d mods s hs hd]
    refine Finset.mem_union_right _ (Finset.mem_biUnion.mpr ⟨_, ih, hzx⟩)

/-- Characterization of saturated propagation as reflexive-transitive
reachability. -/
theorem mem_iterF_iff (d : ModId → Finset ModId) (mods : Finset ModId)
    (s : Finset ModId) (hs : s ⊆ mods) (hd : ∀ m ∈ mods, d m ⊆ mods)
    (x : ModId) :
    x ∈ iterF d mods.card s ↔
      ∃ y ∈ s, Relation.ReflTransGen (DepEdge d) y x :=
  ⟨iterF_sound d mods.card s x,
   fun ⟨y, hy, hr⟩ => iterF_complete d mods s hs hd y x hy hr⟩

/-- Forward reachability stays inside the universe. -/
theorem transGen_mem (g : ModuleGraph) (a c : ModId)
    (hwf : ∀ m ∈ g.mods, g.deps m ⊆ g.mods) (ha : a ∈ g.mods)
    (h : Relation.TransGen (DepEdge g.deps) a c) : c ∈ g.mods := by
  induction h with
  | single hac => exact hwf a ha hac
  | tail _ hbc ih => exact hwf _ ih hbc

/-- The transpose is faithful: forward transitive reachability `a →⁺ b`
coincides with reverse-index transitive reachability `b →⁺ a`, for `a`
in the universe. -/
theorem transGen_rev_iff (g : ModuleGraph) (a b : ModId)
    (hwf : ∀ m ∈ g.mods, g.deps m ⊆ g.mods) (ha : a ∈ g.mods) :
    Relation.TransGen (DepEdge g.deps) a b ↔
      Relation.TransGen (DepEdge g.revDeps) b a := by
  constructor
  · intro h
    induction h with
    | single hab =>
      exact Relation.TransGen.single (Finset.mem_filter.mpr ⟨ha, hab⟩)
    | tail hac hcb ih =>
      exact Relation.TransGen.head
        (Finset.mem_filter.mpr ⟨transGen_mem g a _ hwf ha hac, hcb⟩) ih
  · intro h
    clear ha
    induction h with
    | single hba =>
      obtain ⟨-, hab⟩ := Finset.mem_filter.mp hba
      exact Relation.TransGen.single hab
    | tail hbc hca ih =>
      obtain ⟨-, hac⟩ := Finset.mem_filter.mp hca
      exact Relation.TransGen.head hac ih

/-- C2: for every pair of module ids in a constructed graph, `a` is in
`affected_by_modules({b})` iff `b` is in the transitive closure returned
by `module_depends_on(a)` (reverse transitivity).  Modelled from the
spec: both sides are computed by saturated propagation, forward over the
direct-dependency map and backward over its transpose. -/
theorem affected_by_iff_depends_on (g : ModuleGraph) (a b : ModId)
    (hwf : ∀ m ∈ g.mods, g.deps m ⊆ g.mods) (ha : a ∈ g.mods) :
    a ∈ g.affectedBy {b} ↔ b ∈ g.closureOf a := by
  have hrev : ∀ m ∈ g.mods, g.revDeps m ⊆ g.mods := by
    intro m _ x hx
    exact (Finset.mem_filter.mp hx).1
  have hseed : ({b} : Finset ModId).biUnion g.revDeps ⊆ g.mods := by
    intro x hx
    obtain ⟨i, -, hxi⟩ := Finset.mem_biUnion.mp hx
    exact (Finset.mem_filter.mp hxi).1
  have h1 : a ∈ g.affectedBy {b} ↔
      Relation.TransGen (DepEdge g.revDeps) b a := by
    unfold ModuleGraph.affectedBy
    rw [mem_iterF_iff g.revDeps g.mods _ hseed hrev a,
      Relation.TransGen.head'_iff]
    constructor
    · rintro ⟨y, hy, hr⟩
      obtain ⟨i, hi, hyi⟩ := Finset.mem_biUnion.mp hy
      rw [Finset.mem_singleton.mp hi] at hyi
      exact ⟨y, hyi, hr⟩
    · rintro ⟨c, hc, hr⟩
      exact ⟨c, Finset.mem_biUnion.mpr ⟨b, Finset.mem_singleton_self b, hc⟩, hr⟩
  have h2 : b ∈ g.closureOf a ↔ Relation.TransGen (DepEdge g.deps) a b := by
    unfold ModuleGraph.closureOf
    rw [mem_iterF_iff g.deps g.mods (g.deps a) (hwf a ha) hwf b,
      Relation.TransGen.head'_iff]
    exact Iff.rfl
  rw [h1, h2]
  exact (transGen_rev_iff g a b hwf ha).symm

/-- The two-module graph of spec scenario S1: `bar` depends on `foo`. -/
def sampleGraph : ModuleGraph where
  mods := {["simple", "bar"], ["simple", "foo"]}
  deps := fun m =>
    if m = (["simple", "bar"] : ModId) then {["simple", "foo"]} else ∅

/-- Witness for C2 on the concrete graph: `bar` is affected by `foo`
exactly because `foo` is in `bar`'s closure. -/
theorem affected_by_iff_depends_on_witness :
    (["simple", "bar"] : ModId) ∈ sampleGraph.affectedBy {["simple", "foo"]} ↔
      (["simple", "foo"] : ModId) ∈ sampleGraph.closureOf ["simple", "bar"] :=
  affected_by_iff_depends_on sampleGraph ["simple", "bar"] ["simple", "foo"]
    (by decide) (by decide)

/-- Leafness is a decidable property of a graph node. -/
instance (g : ModuleGraph) (m : ModId) : Decidable (g.isLeaf m) := by
  unfold ModuleGraph.isLeaf
  infer_instance

/-- The extras of an applicable overlay edge all land in the overlay sum. -/
theorem extras_subset_foldr (g : ModuleGraph)
    (edges : List (ModId × Finset ModId)) (m : ModId)
    (e : ModId × Finset ModId) (he : e ∈ edges)
    (hc : e.1 = m ∨ m ∈ g.affectedBy {e.1}) :
    e.2 ⊆ edges.foldr
      (fun e acc =>
        if e.1 = m ∨ m ∈ g.affectedBy {e.1} then e.2 ∪ acc else acc)
      ∅ := by
  induction edges with
  | nil => exact absurd he (List.not_mem_nil e)
  | cons f rest ih =>
    rw [List.foldr_cons]
    rcases List.mem_cons.mp he with rfl | he'
    · rw [if_pos hc]
      exact Finset.subset_union_left
    · by_cases hcf : f.1 = m ∨ m ∈ g.affectedBy {f.1}
      · rw [if_pos hcf]
        exact (ih he').trans Finset.subset_union_right
      · rw [if_neg hcf]
        exact ih he'

/-- C3 (amended): after `add_dynamic_dependencies_at_leaves(E)` on a
valid edge list, every module's closure is a superset of its previous
closure, and the inclusion is strict for every module `m` whose previous
closure contained a leaf of `E` *whose extra dependencies are not already
all in `m`'s closure*.  (If the extras attached to every leaf contained
in `closure(m)` were already present, `closure(m)` is unchanged.) -/
theorem add_dynamic_monotone (g : ModuleGraph)
    (edges : List (ModId × Finset ModId))
    (hwf : ∀ m ∈ g.mods, g.deps m ⊆ g.mods)
    (hleaf : ∀ e ∈ edges, g.isLeaf e.1) :
    (∀ m, g.closureOf m ⊆ g.addDynClosure edges m) ∧
      ∀ m ∈ g.mods, ∀ e ∈ edges, e.1 ∈ g.closureOf m →
        ¬(e.2 ⊆ g.closureOf m) →
        g.closureOf m ⊂ g.addDynClosure edges m := by
  constructor
  · intro m
    unfold ModuleGraph.addDynClosure
    exact Finset.subset_union_left
  · intro m hm e he hcl hns
    have hsub : g.closureOf m ⊆ g.addDynClosure edges m := by
      unfold ModuleGraph.addDynClosure
      exact Finset.subset_union_left
    refine (Finset.ssubset_iff_of_subset hsub).mpr ?_
    obtain ⟨x, hx, hxn⟩ := Finset.not_subset.mp hns
    refine ⟨x, ?_, hxn⟩
    unfold ModuleGraph.addDynClosure
    refine Finset.mem_union_right _ ?_
    refine extras_subset_foldr g edges m e he ?_ hx
    exact Or.inr ((affected_by_iff_depends_on g m e.1 hwf hm).mpr hcl)

/-- The graph of the degenerate overlay scenario: `m` depends on the leaf
`l`, which has no dependencies of its own. -/
def cexGraph : ModuleGraph where
  mods := {["m"], ["l"]}
  deps := fun m => if m = (["m"] : ModId) then {["l"]} else ∅

/-- A valid overlay edge list whose extras are empty. -/
def cexEdges : List (ModId × Finset ModId) := [(["l"], ∅)]

/-- Counterexample to C3 as stated: the edge list is valid (its id is a
leaf), the closure of `m` contains the leaf `l`, yet the closure of `m`
after the overlay is *equal* to its previous closure — the increase is
not strict, because the extras attached to `l` (here none) add nothing
new. -/
theorem add_dynamic_strict_cex :
    (∀ e ∈ cexEdges, cexGraph.isLeaf e.1) ∧
      (["l"] : ModId) ∈ cexGraph.closureOf ["m"] ∧
      cexGraph.addDynClosure cexEdges ["m"] = cexGraph.closureOf ["m"] := by
  refine ⟨?_, ?_, ?_⟩ <;> decide

/-- The overlay scenario of spec scenario S4: the extra dependency `x`
is attached to the leaf `l` below `m`. -/
def sampleLeafGraph : ModuleGraph where
  mods := {["m"], ["l"], ["x"]}
  deps := fun m => if m = (["m"] : ModId) then {["l"]} else ∅

/-- An overlay attaching the fresh extra dependency `x` to the leaf `l`. -/
def sampleLeafEdges : List (ModId × Finset ModId) := [(["l"], {["x"]})]

/-- Witness for C3 (amended) on concrete data: the closure of `m`
strictly grows when a genuinely new extra is attached to a leaf it
reaches. -/
theorem add_dynamic_monotone_witness :
    sampleLeafGraph.closureOf ["m"] ⊂
      sampleLeafGraph.addDynClosure sampleLeafEdges ["m"] :=
  (add_dynamic_monotone sampleLeafGraph sampleLeafEdges (by decide)
      (by decide)).2
    ["m"] (by decide) (["l"], {["x"]}) (by decide) (by decide) (by decide)
